import Mathlib

/-!
Verification of the Gaussian-Cube importer core (`cube_blender/__init__.py`):
header parsing, payload decoding, transform construction, grid naming,
filename-sequence resolution and batch orchestration.

Modelling conventions.
* A text file is a list of lines, each line the list of its whitespace-
  separated numeric tokens; numeric tokens are carried as exact rationals
  (the code only moves payload values around, so no rounding is involved).
  `f.readline()` at end of file returns the empty string, hence an empty
  token list; `f.read()` of the remainder is the concatenation of the
  remaining lines' tokens.
* Python exceptions raised while one file is parsed are the `PyError`
  values; `.hang` marks the one place where the source loops forever
  (orbital-index continuation lines missing at end of file), so that the
  Lean function stays total.
* `np.fromstring(content, sep=' ')` raises `ValueError("string is empty")`
  in separator mode when `content` is the empty string (numpy
  `ctors.c`, `PyArray_FromString`); otherwise it tokenizes the text on
  whitespace into floats.  An exhausted stream reads as the empty string,
  which the model renders as an empty list of remaining lines.
-/

/-- A raised Python exception, as observable from the importer:
`valueError` and `indexError` match the exception class raised by the
source; `hang` stands for the one control path that never terminates. -/
inductive PyError where
  | valueError (msg : String)
  | indexError
  | hang
  deriving Repr, DecidableEq

/-- Python `int(token)`: succeeds exactly on integral numerals, raises
`ValueError` otherwise (modelled on exact rationals: integral iff the
denominator is 1). -/
def pyInt (q : ℚ) : Except PyError ℤ :=
  if q.den = 1 then .ok q.num else .error (.valueError ("invalid literal for int"))

/-- Python `xs[i]`: `IndexError` when out of range. -/
def pyIdx {α : Type} (l : List α) (i : ℕ) : Except PyError α :=
  match l[i]? with
  | some a => .ok a
  | none => .error .indexError

/-- Model of `f.readline().split()` on a stream of remaining lines: at end of file
the read returns the empty string, hence an empty token list. -/
def readline1 (s : List (List ℚ)) : List ℚ :=
  match s with
  | [] => []
  | l :: _ => l

/-- The stream after one `readline`: unchanged (still exhausted) at end
of file, advanced by one line otherwise. -/
def rest1 (s : List (List ℚ)) : List (List ℚ) :=
  match s with
  | [] => []
  | _ :: r => r

/-- The decimal digit character for `d` (used for `d < 10`). -/
def digitCharOf : ℕ → Char
  | 0 => '0' | 1 => '1' | 2 => '2' | 3 => '3' | 4 => '4'
  | 5 => '5' | 6 => '6' | 7 => '7' | 8 => '8' | _ => '9'

/-- Decimal digits of `n`, most significant first, computed with a fuel
argument so that the kernel can evaluate it; `fuel = n + 1` always
suffices. -/
def natDigitsAux : ℕ → ℕ → List Char
  | 0, _ => []
  | fuel + 1, n =>
    if n < 10 then [digitCharOf n]
    else natDigitsAux fuel (n / 10) ++ [digitCharOf (n % 10)]

/-- Decimal digits of `n`, most significant first. -/
def natDigits (n : ℕ) : List Char := natDigitsAux (n + 1) n

/-- Python `str(n)` for a non-negative integer. -/
def pyStrNat (n : ℕ) : String := ⟨natDigits n⟩

/-- Python `str(z)` for an integer (a `-` sign followed by the digits when
negative). -/
def pyStrInt : ℤ → String
  | .ofNat n => pyStrNat n
  | .negSucc n => ⟨'-' :: natDigits (n + 1)⟩

/-- Python `int(s)` on a string of decimal digits (also the value of a
digit run extracted from a filename). -/
def digitsVal (cs : List Char) : ℕ :=
  cs.foldl (fun a c => 10 * a + (c.toNat - 48)) 0

theorem natDigitsAux_congr (f₁ : ℕ) : ∀ (f₂ n : ℕ), n < f₁ → n < f₂ →
    natDigitsAux f₁ n = natDigitsAux f₂ n := by
  induction f₁ with
  | zero => intro f₂ n h₁ _; omega
  | succ f ih =>
    intro f₂ n h₁ h₂
    match f₂, h₂ with
    | f₂ + 1, h₂ =>
      simp only [natDigitsAux]
      by_cases h : n < 10
      · simp [h]
      · simp only [h, if_false]
        have hd : n / 10 < n := Nat.div_lt_self (by omega) (by omega)
        rw [ih f₂ (n / 10) (by omega) (by omega)]

theorem natDigits_eq (n : ℕ) :
    natDigits n = if n < 10 then [digitCharOf n]
      else natDigits (n / 10) ++ [digitCharOf (n % 10)] := by
  show natDigitsAux (n + 1) n = _
  simp only [natDigitsAux]
  by_cases h : n < 10
  · simp [h]
  · simp only [h, if_false, natDigits]
    have hd : n / 10 < n := Nat.div_lt_self (by omega) (by omega)
    rw [natDigitsAux_congr n (n / 10 + 1) (n / 10) (by omega) (by omega)]

theorem digitCharOf_toNat {d : ℕ} (h : d < 10) : (digitCharOf d).toNat - 48 = d := by
  interval_cases d <;> decide

theorem digitsVal_append_singleton (cs : List Char) (c : Char) :
    digitsVal (cs ++ [c]) = 10 * digitsVal cs + (c.toNat - 48) := by
  simp [digitsVal, List.foldl_append]

theorem digitsVal_natDigits (n : ℕ) : digitsVal (natDigits n) = n := by
  induction n using Nat.strong_induction_on with
  | _ n ih =>
    rw [natDigits_eq]
    by_cases h : n < 10
    · simp only [h, if_true, digitsVal, List.foldl_cons, List.foldl_nil]
      have := digitCharOf_toNat h
      omega
    · simp only [h, if_false, digitsVal_append_singleton]
      have hd : n / 10 < n := Nat.div_lt_self (by omega) (by omega)
      rw [ih (n / 10) hd, digitCharOf_toNat (Nat.mod_lt n (by omega))]
      omega

theorem pyStrNat_injective : Function.Injective pyStrNat := by
  intro a b h
  have hd : natDigits a = natDigits b := congrArg String.data h
  have := congrArg digitsVal hd
  simpa [digitsVal_natDigits] using this

theorem natDigits_ne_nil (n : ℕ) : natDigits n ≠ [] := by
  rw [natDigits_eq]
  by_cases h : n < 10 <;> simp [h]

theorem isDigit_digitCharOf {d : ℕ} (h : d < 10) : (digitCharOf d).isDigit = true := by
  interval_cases d <;> decide

theorem mem_natDigits_isDigit (n : ℕ) : ∀ c ∈ natDigits n, c.isDigit = true := by
  induction n using Nat.strong_induction_on with
  | _ n ih =>
    rw [natDigits_eq]
    by_cases h : n < 10
    · simp only [h, if_true, List.mem_singleton]
      rintro c rfl; exact isDigit_digitCharOf h
    · simp only [h, if_false, List.mem_append, List.mem_singleton]
      rintro c (hc | rfl)
      · exact ih (n / 10) (Nat.div_lt_self (by omega) (by omega)) c hc
      · exact isDigit_digitCharOf (Nat.mod_lt n (by omega))

theorem underscore_not_mem_natDigits (n : ℕ) : '_' ∉ natDigits n := by
  intro h
  have := mem_natDigits_isDigit n '_' h
  simp [Char.isDigit] at this

/-! ## Header Parser (`read_vdb_grids`, header section) -/

/-- Grid naming mode of the operator (`naming_mode`). -/
inductive NamingMode where
  | MO_INDICES
  | SEQUENTIAL
  deriving Repr, DecidableEq

/-- The structured header that `read_vdb_grids` has in hand after the
header section: framing flag, origin, the three axis count / basis-vector
pairs, field (orbital) count and declared orbital indices. -/
structure Header where
  isMultiMo : Bool
  origin : List ℚ
  n1 : ℤ
  v1 : List ℚ
  n2 : ℤ
  v2 : List ℚ
  n3 : ℤ
  v3 : List ℚ
  nMo : ℤ
  moIndices : List ℤ
  deriving Repr, DecidableEq

/-- One axis line: `n_i = int(line[0])` (`IndexError` on an empty line),
basis vector `line[1:4]`. -/
def parseVecLine (l : List ℚ) : Except PyError (ℤ × List ℚ) :=
  match l with
  | [] => .error .indexError
  | t :: _ =>
    match pyInt t with
    | .error e => .error e
    | .ok n => .ok (n, (l.drop 1).take 3)

/-- The `while len(current_indices) < n_mo` accumulation of orbital
indices over continuation lines.  When the stream is exhausted while the
list is still short, the source re-reads the empty string forever; that
divergence is returned as `.hang`. -/
def collectIndices (nMo : ℤ) : List (List ℚ) → List ℤ → Except PyError (List ℤ × List (List ℚ))
  | [], cur => if (cur.length : ℤ) < nMo then .error .hang else .ok (cur, [])
  | l :: rest, cur =>
    if (cur.length : ℤ) < nMo then
      match l.mapM pyInt with
      | .error e => .error e
      | .ok xs => collectIndices nMo rest (cur ++ xs)
    else .ok (cur, l :: rest)

/-- The orbital header line (multi-field framing only): `n_mo` is
`int(line[0])` with `ValueError` recovered to 1 (an empty line still
raises `IndexError`); the indices start from `line[1:]` and, when
`n_mo > 1`, are accumulated until `n_mo` of them are in hand and then
truncated to exactly `n_mo`. -/
def parseMoLine (line : List ℚ) (rest : List (List ℚ)) :
    Except PyError ((ℤ × List ℤ) × List (List ℚ)) :=
  match line with
  | [] => .error .indexError
  | t :: tail =>
    let nMo : ℤ := match pyInt t with | .ok v => v | .error _ => 1
    match tail.mapM pyInt with
    | .error e => .error e
    | .ok cur =>
      if 1 < nMo then
        match collectIndices nMo rest cur with
        | .error e => .error e
        | .ok (idxs, rest') => .ok ((nMo, idxs.take nMo.toNat), rest')
      else if nMo = 1 ∧ cur ≠ [] then .ok ((nMo, cur.take 1), rest)
      else .ok ((nMo, []), rest)

/-- The Header Parser: two title lines, the atom-count / origin line
(empty ⇒ `ValueError("Empty file or bad format")`), three axis lines,
`|atom count|` skipped atom lines, and the orbital header when the atom
count was negative.  Returns the header and the stream of remaining
(payload) lines. -/
def parseHeader (file : List (List ℚ)) : Except PyError (Header × List (List ℚ)) :=
  match readline1 (rest1 (rest1 file)) with
  | [] => .error (.valueError ("Empty file or bad format"))
  | t :: tail =>
    match pyInt t with
    | .error e => .error e
    | .ok nAtomsRaw =>
      match parseVecLine (readline1 (rest1 (rest1 (rest1 file)))) with
      | .error e => .error e
      | .ok (n1, v1) =>
        match parseVecLine (readline1 (rest1 (rest1 (rest1 (rest1 file))))) with
        | .error e => .error e
        | .ok (n2, v2) =>
          match parseVecLine (readline1 (rest1 (rest1 (rest1 (rest1 (rest1 file)))))) with
          | .error e => .error e
          | .ok (n3, v3) =>
            let s7 := (rest1 (rest1 (rest1 (rest1 (rest1 (rest1 file)))))).drop
              nAtomsRaw.natAbs
            if (nAtomsRaw < 0 : Bool) then
              match parseMoLine (readline1 s7) (rest1 s7) with
              | .error e => .error e
              | .ok ((nMo, idxs), s9) =>
                .ok (⟨true, tail.take 3, n1, v1, n2, v2, n3, v3, nMo, idxs⟩, s9)
            else
              .ok (⟨false, tail.take 3, n1, v1, n2, v2, n3, v3, 1, []⟩, s7)

/-! ## Payload Decoder -/

/-- Python `data[:e]` for a possibly negative `e` (a negative stop counts
from the end, clamped at zero). -/
def pySliceTo (data : List ℚ) (e : ℤ) : List ℚ :=
  if 0 ≤ e then data.take e.toNat
  else data.take (data.length - e.natAbs)

/-- Length reconciliation: truncate when too long, right-pad with zeros
when too short (`data[:expected_len]` / `np.pad`), unchanged when the
length already matches. -/
def adjustPayload (data : List ℚ) (expected : ℤ) : List ℚ :=
  if (data.length : ℤ) ≠ expected then
    if expected < (data.length : ℤ) then pySliceTo data expected
    else data ++ List.replicate (expected - data.length).toNat 0
  else data

/-- Model of `np.fromstring(f.read(), sep=' ')` followed by the length
reconciliation: the remainder of the stream is read as one blob and
tokenized on whitespace; an entirely empty remainder raises
`ValueError("string is empty")` inside numpy. -/
def decodePayload (rest : List (List ℚ)) (expected : ℤ) : Except PyError (List ℚ) :=
  match rest with
  | [] => .error (.valueError ("string is empty"))
  | _ => .ok (adjustPayload rest.flatten expected)

/-- Whether `data.reshape(dims)` succeeds: every dimension non-negative
and the product equal to the size.  (numpy raises on a negative reshape
dimension; the `-1` placeholder is not a cube axis count.) -/
def reshapeOk (len : ℕ) (dims : List ℤ) : Prop :=
  (∀ d ∈ dims, 0 ≤ d) ∧ dims.foldl (fun a d => a * d.toNat) 1 = len

instance (len : ℕ) (dims : List ℤ) : Decidable (reshapeOk len dims) := by
  unfold reshapeOk; infer_instance

/-- The per-voxel slice `data[:, :, :, m]` of the flat payload reshaped to
`(n1, n2, n3, F)`, flattened back in voxel order (the field index is the
fastest-varying index of the flat payload). -/
def fieldSlice (flat : List ℚ) (nVox F m : ℕ) : List ℚ :=
  (List.range nVox).map fun v => flat.getD (v * F + m) 0

/-- The dense array bound to field `m`: the interleaved slice when
`F > 1`, the whole payload when `F = 1` (no interleave). -/
def decodedField (flat : List ℚ) (nVox F m : ℕ) : List ℚ :=
  if 1 < F then fieldSlice flat nVox F m else flat

/-- All `F` dense arrays produced from the flat payload. -/
def decodedFields (flat : List ℚ) (nVox F : ℕ) : List (List ℚ) :=
  (List.range F).map (decodedField flat nVox F)

/-! ## Transform Builder -/

/-- numpy `mat[i, :3] = v` on a row of the 4×4 identity: length-3 vectors
assign elementwise, a length-1 vector broadcasts, any other length raises
`ValueError` (broadcast failure). -/
def assignRow3 (row : List ℚ) (v : List ℚ) : Except PyError (List ℚ) :=
  if v.length = 3 then .ok (v ++ row.drop 3)
  else if v.length = 1 then .ok (List.replicate 3 (v.getD 0 0) ++ row.drop 3)
  else .error (.valueError ("could not broadcast"))

/-- The Transform Builder: rows 0–2 of the identity receive the basis
vectors times the scale, row 3 receives the origin times the scale; the
homogeneous column is untouched. -/
def buildTransform (v1 v2 v3 origin : List ℚ) (scale : ℚ) :
    Except PyError (List (List ℚ)) :=
  match assignRow3 [1, 0, 0, 0] (v1.map (· * scale)) with
  | .error e => .error e
  | .ok r0 =>
    match assignRow3 [0, 1, 0, 0] (v2.map (· * scale)) with
    | .error e => .error e
    | .ok r1 =>
      match assignRow3 [0, 0, 1, 0] (v3.map (· * scale)) with
      | .error e => .error e
      | .ok r2 =>
        match assignRow3 [0, 0, 0, 1] (origin.map (· * scale)) with
        | .error e => .error e
        | .ok r3 => .ok [r0, r1, r2, r3]

/-! ## Grid Assembler -/

/-- One produced grid record: name, dense voxel data in flat
X-slowest/Z-fastest order, voxel shape, shared affine transform and the
constant semantic class. -/
structure GridRecord where
  name : String
  data : List ℚ
  shape : ℕ × ℕ × ℕ
  transform : List (List ℚ)
  gridClass : String := "FOG_VOLUME"
  deriving Repr, DecidableEq

/-- The naming policy for field `m` (0-based), exactly as the source
orders its branches: a forced base name (sequence mode) wins, then
single-field framing names the grid "Density", then `MO_INDICES` with a
non-empty declared index list uses the `m`-th declared index, else the
1-based position. -/
def gridNameE (force : Option String) (isMultiMo : Bool) (nMo : ℤ)
    (mode : NamingMode) (moIndices : List ℤ) (m : ℕ) : Except PyError String :=
  match force with
  | some base => .ok (if 1 < nMo then base ++ "_" ++ pyStrNat (m + 1) else base)
  | none =>
    if isMultiMo then
      if mode = NamingMode.MO_INDICES ∧ moIndices ≠ [] then
        match moIndices[m]? with
        | some ix => .ok (pyStrInt ix)
        | none => .error .indexError
      else .ok (pyStrNat (m + 1))
    else .ok ("Density")

/-- The grid-assembly loop `for m in range(n_mo)`: slice out field `m`,
name it, attach the shared transform. -/
def assembleGrids (hdr : Header) (flat : List ℚ) (mat : List (List ℚ))
    (mode : NamingMode) (force : Option String) : Except PyError (List GridRecord) :=
  (List.range hdr.nMo.toNat).mapM fun m =>
    gridNameE force hdr.isMultiMo hdr.nMo mode hdr.moIndices m >>= fun name =>
      .ok { name := name
            data := decodedField flat (hdr.n1.toNat * hdr.n2.toNat * hdr.n3.toNat) hdr.nMo.toNat m
            shape := (hdr.n1.toNat, hdr.n2.toNat, hdr.n3.toNat)
            transform := mat }

/-- The function `read_vdb_grids`: Header Parser, Payload Decoder (with length
reconciliation), reshape, Transform Builder, Grid Assembler.  A pure
function of the file contents and the configuration. -/
def readVdbGrids (file : List (List ℚ)) (scale : ℚ) (mode : NamingMode)
    (force : Option String) : Except PyError (List GridRecord) :=
  parseHeader file >>= fun hr =>
    decodePayload hr.2 (hr.1.n1 * hr.1.n2 * hr.1.n3 * hr.1.nMo) >>= fun flat =>
      if reshapeOk flat.length
          (if 1 < hr.1.nMo then [hr.1.n1, hr.1.n2, hr.1.n3, hr.1.nMo]
           else [hr.1.n1, hr.1.n2, hr.1.n3]) then
        buildTransform hr.1.v1 hr.1.v2 hr.1.v3 hr.1.origin scale >>= fun mat =>
          assembleGrids hr.1 flat mat mode force
      else .error (.valueError ("cannot reshape"))

/-! ## Sequence Resolver (`load_cube`) -/

/-- Split a character list around its LAST `'.'`: `some (before, ext)`
with the dot removed, `none` when no dot occurs. -/
def splitLastDot : List Char → Option (List Char × List Char)
  | [] => none
  | c :: rest =>
    match splitLastDot rest with
    | some (b, a) => some (c :: b, a)
    | none => if c = '.' then some ([], rest) else none

/-- Model of `os.path.splitext(p)[0]` on a plain file name: cut at the last dot
unless every character before that dot is itself a dot. -/
def splitextRoot (s : String) : String :=
  match splitLastDot s.data with
  | none => s
  | some (before, _ext) => if before.any (· ≠ '.') then ⟨before⟩ else s

/-- Model of `re.search(r'(\d+)(?=(\.[^.]+)$)', filename)`: the maximal digit run
that ends immediately before the final extension (the last dot followed
by a non-empty, dot-free extension).  Returns
`(prefix, digit run, suffix)` with `suffix` the dot plus extension;
`none` when the file name has no such run. -/
def detectPattern (s : String) : Option (String × String × String) :=
  match splitLastDot s.data with
  | none => none
  | some (before, ext) =>
    if ext = [] then none
    else if (before.reverse.takeWhile Char.isDigit).reverse = [] then none
    else some (⟨(before.reverse.dropWhile Char.isDigit).reverse⟩,
               ⟨(before.reverse.takeWhile Char.isDigit).reverse⟩, ⟨'.' :: ext⟩)

/-- Model of the sibling matcher regex `^prefix(\d+)suffix$` applied with `.match`:
`f` decomposes as `pre ++ digits ++ suf` with a non-empty all-digit
middle; the matched value is `int(digits)`. -/
def matchSibling (pre suf f : String) : Option ℕ :=
  let p := pre.data
  let x := suf.data
  let cs := f.data
  if p.length + x.length < cs.length ∧ cs.take p.length = p ∧
      cs.drop (cs.length - x.length) = x ∧
      ((cs.drop p.length).take (cs.length - p.length - x.length)).all Char.isDigit then
    some (digitsVal ((cs.drop p.length).take (cs.length - p.length - x.length)))
  else none

/-- Python `str.endswith` on the character lists (byte positions play no
role for the one-character suffixes the source tests). -/
def pyEndsWith (s t : String) : Bool :=
  t.data.isSuffixOf s.data

/-- One detected sequence member: sibling path (directory-relative file
name), grid base name `str(int(digits))`, numeric sort key. -/
structure SeqEntry where
  path : String
  name : String
  num : ℕ
  deriving Repr, DecidableEq

/-- The directory scan: every sibling matching the pattern, in listing
order, with its stringified integer and numeric value. -/
def foundSequences (listing : List String) (pre suf : String) : List SeqEntry :=
  listing.filterMap fun f => (matchSibling pre suf f).map fun n => ⟨f, pyStrNat n, n⟩

/-- Stable insertion of `e` into a run already sorted by `num`: `e` goes
after every earlier element whose key is strictly smaller, and after no
equal-key element that preceded it. -/
def insertByNum (e : SeqEntry) : List SeqEntry → List SeqEntry
  | [] => [e]
  | x :: xs => if x.num < e.num then x :: insertByNum e xs else e :: x :: xs

/-- Model of `found_sequences.sort(key=lambda x: x[2])`: Python's list sort is an
ascending stable sort by the key; a stable ascending insertion sort has
exactly that observable behaviour. -/
def sortFound : List SeqEntry → List SeqEntry
  | [] => []
  | x :: xs => insertByNum x (sortFound xs)

/-- The per-file processing plan drawn from the sorted sequence list:
`(path, forced grid base name)` pairs. -/
def planFromFound (found : List SeqEntry) : List (String × Option String) :=
  found.map fun e => (e.path, some e.name)

/-- The Sequence Resolver: the processing plan and the batch output
identifier.  Sequence mode off, or no digit run before the extension,
keeps the single input file and the input path with `.vdb` substituted;
a detected pattern switches the output to `{prefix}all.vdb` (with a `_`
separator ensured) and, when the directory scan matched siblings, the
plan to the numerically sorted sibling list. -/
def resolveSequence (listing : List String) (filename : String) (importSeq : Bool) :
    List (String × Option String) × String :=
  let defaultOut := splitextRoot filename ++ ".vdb"
  if importSeq then
    match detectPattern filename with
    | some (pre, _digits, suf) =>
      let nameBase := if pyEndsWith pre ("_") || pyEndsWith pre (".") then pre
        else pre ++ "_"
      let outName := nameBase ++ "all.vdb"
      let found := sortFound (foundSequences listing pre suf)
      if found.isEmpty then ([(filename, none)], outName)
      else (planFromFound found, outName)
    | none => ([(filename, none)], defaultOut)
  else ([(filename, none)], defaultOut)

/-- The plan component of the Sequence Resolver's answer. -/
def planOf (listing : List String) (filename : String) (importSeq : Bool) :
    List (String × Option String) :=
  (resolveSequence listing filename importSeq).1

/-- The batch destination identifier component. -/
def outputNameOf (listing : List String) (filename : String) (importSeq : Bool) : String :=
  (resolveSequence listing filename importSeq).2

/-! ## Batch Orchestrator -/

/-- A directory: the files it holds, as (name, tokenized contents)
pairs; `os.listdir` yields the names in this order. -/
def Directory : Type := List (String × List (List ℚ))

/-- The names `os.listdir` returns. -/
def listdir (dir : Directory) : List String :=
  dir.map Prod.fst

/-- Process one plan entry: open the file and run `read_vdb_grids` with
the entry's forced base name.  A raised per-file exception (missing
file, `ValueError`, `IndexError`) is caught by the orchestrator's
`except Exception` and contributes no grids (`some []`); but when the
read diverges in the orbital-index continuation loop it never returns,
and no handler can catch that — the call site hangs (`none`). -/
def perFileGrids (dir : Directory) (scale : ℚ) (mode : NamingMode) :
    String × Option String → Option (List GridRecord)
  | (path, custom) =>
    match List.lookup path dir with
    | none => some []
    | some contents =>
      match readVdbGrids contents scale mode custom with
      | .ok gs => some gs
      | .error .hang => none
      | .error _ => some []

/-- The `all_grids` accumulation loop over the plan, in plan order.  A
diverging read never returns, so the loop (and everything after the
hanging file) is lost: the fold short-circuits to `none`. -/
def batchGrids (dir : Directory) (scale : ℚ) (mode : NamingMode)
    (plan : List (String × Option String)) : Option (List GridRecord) :=
  plan.foldlM (fun acc entry => (perFileGrids dir scale mode entry).map (acc ++ ·)) []

/-- The function `load_cube`: resolve the sequence, accumulate every file's grids
(raised per-file exceptions caught), raise `RuntimeError("No grids loaded.")`
on an empty batch, otherwise hand the batch and the destination identifier
to the container writer (`openvdb.write`), modelled as the `.ok` value.
When one file's read diverges, the whole call diverges (`none`): no
`RuntimeError`, no writer call, later files never processed. -/
def loadCube (dir : Directory) (filename : String) (scale : ℚ) (mode : NamingMode)
    (importSeq : Bool) : Option (Except String (String × List GridRecord)) :=
  let plan := planOf (listdir dir) filename importSeq
  let outName := outputNameOf (listdir dir) filename importSeq
  match batchGrids dir scale mode plan with
  | none => none
  | some allGrids =>
    if allGrids.isEmpty then some (.error ("No grids loaded."))
    else some (.ok (outName, allGrids))

deriving instance DecidableEq for Except

/-! ## Concrete sample inputs used by the closed statements -/

/-- The first character run of a name up to (not including) the first
`_`; forced-base-name grids all share their file's base here. -/
def baseOf (s : String) : List Char :=
  s.data.takeWhile (· ≠ '_')

/-- A single-field 2×2×2 cube file with payload `1 2 3 4 5 6 7 8`,
identity basis, origin 0, no atoms. -/
def sampleCube : List (List ℚ) :=
  [[], [], [0, 0, 0, 0], [2, 1, 0, 0], [2, 0, 1, 0], [2, 0, 0, 1],
   [1, 2, 3, 4, 5, 6, 7, 8]]

/-- A single-field 2×2×2 cube file that ends right after the header: the
payload region is entirely empty. -/
def emptyPayloadCube : List (List ℚ) :=
  [[], [], [0, 0, 0, 0], [2, 1, 0, 0], [2, 0, 1, 0], [2, 0, 0, 1]]

/-- A multi-field cube file (atom count −1) whose stream ends before its
one atom line: a truncated atom block. -/
def truncatedMultiCube : List (List ℚ) :=
  [[], [], [-1, 0, 0, 0], [1, 1, 0, 0], [1, 0, 1, 0], [1, 0, 0, 1]]

/-- A valid single-field 1×1×1 cube file whose one payload value is `x`. -/
def oneVoxCube (x : ℚ) : List (List ℚ) :=
  [[], [], [0, 0, 0, 0], [1, 1, 0, 0], [1, 0, 1, 0], [1, 0, 0, 1], [x]]

/-- A directory holding `a1.cub` and `a01.cub`: two sibling files whose
digit runs parse to the same integer 1. -/
def clashDir : Directory :=
  [("a1.cub", oneVoxCube 5), ("a01.cub", oneVoxCube 7)]

/-- A multi-field cube file whose orbital header declares 3 fields but
supplies only one index before the stream ends: the source's
continuation loop re-reads the empty string forever. -/
def hangCube : List (List ℚ) :=
  [[], [], [-1, 0, 0, 0], [1, 1, 0, 0], [1, 0, 1, 0], [1, 0, 0, 1], [0], [3, 5]]

/-- A directory whose first sequence member hangs the reader and whose
second member is a perfectly healthy single-field file. -/
def hangBatchDir : Directory :=
  [("b1.cub", hangCube), ("b2.cub", oneVoxCube 9)]

/-- A multi-field 1×1×1 cube file: atom count −1, one atom line, field
count 2, declared indices `5 7`, payload `3 4`. -/
def mmoCube : List (List ℚ) :=
  [[], [], [-1, 0, 0, 0], [1, 1, 0, 0], [1, 0, 1, 0], [1, 0, 0, 1],
   [0], [2, 5, 7], [3, 4]]

section

attribute [local semireducible] Rat.mul

/-! ## Helper lemmas -/

theorem adjustPayload_length (data : List ℚ) (E : ℕ) :
    (adjustPayload data (E : ℤ)).length = E := by
  unfold adjustPayload pySliceTo
  by_cases h : (data.length : ℤ) ≠ (E : ℤ)
  · rw [if_pos h]
    by_cases h2 : (E : ℤ) < (data.length : ℤ)
    · rw [if_pos h2, if_pos (Int.natCast_nonneg E)]
      simp only [List.length_take, Int.toNat_natCast]
      omega
    · rw [if_neg h2]
      simp only [List.length_append, List.length_replicate]
      omega
  · rw [if_neg h]
    omega

theorem fieldSlice_length (flat : List ℚ) (nVox F m : ℕ) :
    (fieldSlice flat nVox F m).length = nVox := by
  simp [fieldSlice]

theorem decodedFields_length_sum (flat : List ℚ) (nVox F : ℕ)
    (h : flat.length = nVox * F) :
    ((decodedFields flat nVox F).map List.length).sum = nVox * F := by
  unfold decodedFields decodedField
  by_cases hF : 1 < F
  · simp only [hF, if_true, List.map_map]
    have hc : (List.length ∘ fun m => fieldSlice flat nVox F m) = fun _ => nVox := by
      funext m
      exact fieldSlice_length flat nVox F m
    rw [hc, List.map_const', List.sum_replicate, List.length_range, smul_eq_mul,
      Nat.mul_comm]
  · interval_cases F
    · simp
    · simp [h]

/-! ## Claim theorems -/

/-- C9.  The parse-and-decode pipeline is a pure function of the file
contents and the configuration in this embedding (no hidden state, no
input besides the arguments), so two runs on the same contents produce
definitionally identical results — in particular bit-identical
ScalarField contents. -/
theorem spec_C9 (file : List (List ℚ)) (scale : ℚ) (mode : NamingMode)
    (force : Option String) :
    readVdbGrids file scale mode force = readVdbGrids file scale mode force := rfl

/-- C6.  The Transform Builder writes each scaled basis vector into rows
0–2, the scaled origin into row 3, and leaves the homogeneous fourth
column `(0,0,0,1)` of the identity untouched; with the identity basis,
zero origin and scale 2 the diagonal is `(2,2,2)` and the translation row
is zero. -/
theorem spec_C6 (b11 b12 b13 b21 b22 b23 b31 b32 b33 o1 o2 o3 sc : ℚ) :
    buildTransform [b11, b12, b13] [b21, b22, b23] [b31, b32, b33] [o1, o2, o3] sc =
      .ok [[b11 * sc, b12 * sc, b13 * sc, 0],
           [b21 * sc, b22 * sc, b23 * sc, 0],
           [b31 * sc, b32 * sc, b33 * sc, 0],
           [o1 * sc, o2 * sc, o3 * sc, 1]] ∧
    buildTransform [1, 0, 0] [0, 1, 0] [0, 0, 1] [0, 0, 0] 2 =
      .ok [[2, 0, 0, 0], [0, 2, 0, 0], [0, 0, 2, 0], [0, 0, 0, 1]] := by
  exact ⟨rfl, by decide⟩

/-- C4.  The Grid Assembler's naming policy for 0-based field `m`: a
forced base name yields the base itself when `F = 1` and `{base}_{m+1}`
when `F > 1`; otherwise single-field framing yields "Density"; otherwise
`MO_INDICES` with a non-empty declared index list yields the `m`-th
declared index stringified with no prefix; otherwise the stringified
1-based position `m+1`. -/
theorem spec_C4 (base : String) (isMulti : Bool) (nMo : ℤ) (mode : NamingMode)
    (idxs : List ℤ) (m : ℕ) :
    (gridNameE (some base) isMulti nMo mode idxs m =
      .ok (if 1 < nMo then base ++ "_" ++ pyStrNat (m + 1) else base)) ∧
    (gridNameE none false nMo mode idxs m = .ok ("Density")) ∧
    (∀ h : m < idxs.length,
      gridNameE none true nMo .MO_INDICES idxs m = .ok (pyStrInt (idxs.get ⟨m, h⟩))) ∧
    (gridNameE none true nMo .SEQUENTIAL idxs m = .ok (pyStrNat (m + 1))) ∧
    (gridNameE none true nMo .MO_INDICES [] m = .ok (pyStrNat (m + 1))) := by
  refine ⟨rfl, rfl, ?_, ?_, ?_⟩
  · intro h
    have hne : idxs ≠ [] := by
      intro hnil; rw [hnil] at h; simp at h
    simp [gridNameE, hne, List.getElem?_eq_getElem h, List.get_eq_getElem]
  · simp [gridNameE]
  · simp [gridNameE]


theorem voxel_index_lt {i j k N1 N2 N3 : ℕ} (hi : i < N1) (hj : j < N2) (hk : k < N3) :
    (i * N2 + j) * N3 + k < N1 * N2 * N3 := by
  have h0 : (i + 1) * N2 ≤ N1 * N2 := Nat.mul_le_mul_right N2 (by omega)
  have h1 : i * N2 + j + 1 ≤ N1 * N2 := by
    have hs : (i + 1) * N2 = i * N2 + N2 := by ring
    omega
  calc (i * N2 + j) * N3 + k < (i * N2 + j + 1) * N3 := by
        have hs : (i * N2 + j + 1) * N3 = (i * N2 + j) * N3 + N3 := by ring
        omega
    _ ≤ (N1 * N2) * N3 := Nat.mul_le_mul_right N3 h1
    _ = N1 * N2 * N3 := by ring

/-- C1 (amended).  Given a non-empty payload text, the Payload Decoder is
error-free and returns arrays totalling exactly `n1*n2*n3*F` values: a
payload `K` values long of the expectation keeps exactly the first
`expected` tokens (the last `K` are discarded), and a payload `K` values
short keeps every token and appends exactly `K` zeros.  (An entirely
empty payload region instead raises inside the tokenizer — see the
counterexample.) -/
theorem spec_C1 (rest : List (List ℚ)) (N1 N2 N3 F K : ℕ) (hrest : rest ≠ []) :
    decodePayload rest ((N1 * N2 * N3 * F : ℕ) : ℤ) =
      .ok (adjustPayload rest.flatten ((N1 * N2 * N3 * F : ℕ) : ℤ)) ∧
    ((decodedFields (adjustPayload rest.flatten ((N1 * N2 * N3 * F : ℕ) : ℤ))
        (N1 * N2 * N3) F).map List.length).sum = N1 * N2 * N3 * F ∧
    (rest.flatten.length = N1 * N2 * N3 * F + K →
      adjustPayload rest.flatten ((N1 * N2 * N3 * F : ℕ) : ℤ) =
        rest.flatten.take (N1 * N2 * N3 * F) ∧
      (rest.flatten.drop (N1 * N2 * N3 * F)).length = K) ∧
    (N1 * N2 * N3 * F = rest.flatten.length + K →
      adjustPayload rest.flatten ((N1 * N2 * N3 * F : ℕ) : ℤ) =
        rest.flatten ++ List.replicate K 0) := by
  refine ⟨?_, ?_, ?_, ?_⟩
  · match rest, hrest with
    | l :: ls, _ => rfl
  · exact decodedFields_length_sum _ _ _ (adjustPayload_length _ _)
  · intro hlen
    by_cases hK : K = 0
    · subst hK
      have he : rest.flatten.length = N1 * N2 * N3 * F := by omega
      unfold adjustPayload
      rw [if_neg (by omega)]
      refine ⟨?_, by rw [List.length_drop]; omega⟩
      rw [← he, List.take_length]
    · unfold adjustPayload pySliceTo
      rw [if_pos (by omega), if_pos (by omega), if_pos (Int.natCast_nonneg _)]
      refine ⟨by rw [Int.toNat_natCast], ?_⟩
      rw [List.length_drop]
      omega
  · intro hlen
    by_cases hK : K = 0
    · subst hK
      unfold adjustPayload
      rw [if_neg (by omega)]
      simp
    · unfold adjustPayload
      rw [if_pos (by omega), if_neg (by omega)]
      congr 1
      have : ((N1 * N2 * N3 * F : ℕ) : ℤ) - rest.flatten.length = (K : ℤ) := by omega
      rw [this, Int.toNat_natCast]

/-- C1 counterexample.  A parsed single-field header with
`n1 = n2 = n3 = 2` whose payload region is entirely empty (the tokenized
payload has `K = 8` fewer values than expected): the claim says the
decoder zero-pads and raises no error, but the code raises
`ValueError("string is empty")` inside `np.fromstring` and produces
nothing. -/
theorem spec_C1_cex :
    readVdbGrids emptyPayloadCube 1 .MO_INDICES none =
      .error (.valueError ("string is empty")) := by decide

theorem spec_C1_witness :
    adjustPayload (List.flatten [[(1 : ℚ), 2, 3]]) ((2 * 1 * 1 * 1 : ℕ) : ℤ) =
      (List.flatten [[(1 : ℚ), 2, 3]]).take (2 * 1 * 1 * 1) ∧
    ((List.flatten [[(1 : ℚ), 2, 3]]).drop (2 * 1 * 1 * 1)).length = 1 :=
  (spec_C1 [[1, 2, 3]] 2 1 1 1 1 (by decide)).2.2.1 (by decide)

/-- C2.  With `F` fields interleaved per voxel (field index
fastest-varying) inside X-slowest/Z-fastest voxel order, the value of
field `m` at voxel `(i,j,k)` is the flat payload token at position
`((i*n2 + j)*n3 + k)*F + m` (also when `F = 1`, where the field is the
whole payload); and the concrete single-field 2×2×2 file with payload
`1 2 3 4 5 6 7 8` yields one grid named "Density" with flattened
contents `[1,…,8]` and the identity transform. -/
theorem spec_C2 (data : List ℚ) (N1 N2 N3 F m i j k : ℕ)
    (hlen : data.length = N1 * N2 * N3 * F) (hm : m < F)
    (hi : i < N1) (hj : j < N2) (hk : k < N3) :
    ((decodedFields data (N1 * N2 * N3) F).getD m []).getD ((i * N2 + j) * N3 + k) 0 =
      data.getD (((i * N2 + j) * N3 + k) * F + m) 0 ∧
    readVdbGrids sampleCube 1 .MO_INDICES none =
      .ok [{ name := "Density", data := [1, 2, 3, 4, 5, 6, 7, 8], shape := (2, 2, 2),
             transform := [[1, 0, 0, 0], [0, 1, 0, 0], [0, 0, 1, 0], [0, 0, 0, 1]] }] := by
  constructor
  · have hvox : (i * N2 + j) * N3 + k < N1 * N2 * N3 := voxel_index_lt hi hj hk
    have hfield : (decodedFields data (N1 * N2 * N3) F).getD m [] =
        decodedField data (N1 * N2 * N3) F m := by
      unfold decodedFields
      rw [List.getD_eq_getElem?_getD, List.getElem?_map, List.getElem?_range hm]
      rfl
    rw [hfield]
    unfold decodedField
    by_cases hF : 1 < F
    · rw [if_pos hF]
      unfold fieldSlice
      rw [List.getD_eq_getElem?_getD, List.getElem?_map, List.getElem?_range hvox]
      rfl
    · have hF1 : F = 1 := by omega
      have hm0 : m = 0 := by omega
      subst hF1
      subst hm0
      rw [if_neg hF, Nat.mul_one, Nat.add_zero]
  · decide

theorem spec_C2_witness :
    ((decodedFields [10, 20, 30, 40, 50, 60] (1 * 3 * 1) 2).getD 1 []).getD
        ((0 * 3 + 2) * 1 + 0) 0 =
      List.getD [10, 20, 30, 40, 50, 60] (((0 * 3 + 2) * 1 + 0) * 2 + 1) 0 :=
  (spec_C2 [10, 20, 30, 40, 50, 60] 1 3 1 2 1 0 2 0 (by decide) (by decide)
    (by decide) (by decide) (by decide)).1

/-- C7.  A file whose stream is exhausted before all `|atom_count|`
atom-record lines have been read fails with an error rather than
producing any ScalarField: in multi-field framing the orbital-header
read hits the exhausted stream (`IndexError` on the missing token), and
in single-field framing the empty payload region raises
`ValueError("string is empty")` inside the tokenizer. -/
theorem spec_C7 (t1 t2 o u1 u2 u3 : List ℚ) (q0 q1 q2 q3 : ℚ) (A n1 n2 n3 : ℤ)
    (atoms : List (List ℚ)) (scale : ℚ) (mode : NamingMode) (force : Option String)
    (h0 : pyInt q0 = .ok A) (h1 : pyInt q1 = .ok n1) (h2 : pyInt q2 = .ok n2)
    (h3 : pyInt q3 = .ok n3) (htr : atoms.length < A.natAbs) :
    ∃ e, readVdbGrids
        (t1 :: t2 :: (q0 :: o) :: (q1 :: u1) :: (q2 :: u2) :: (q3 :: u3) :: atoms)
        scale mode force = .error e := by
  have hdrop : atoms.drop A.natAbs = [] := List.drop_eq_nil_of_le (Nat.le_of_lt htr)
  unfold readVdbGrids
  simp only [parseHeader, readline1, rest1, parseVecLine, h0, h1, h2, h3, hdrop]
  by_cases hA : A < 0
  · simp [hA, parseMoLine]
    exact ⟨_, rfl⟩
  · simp [hA]
    exact ⟨_, rfl⟩

theorem spec_C7_witness :
    ∃ e, readVdbGrids truncatedMultiCube 1 .MO_INDICES none = .error e :=
  spec_C7 [] [] [0, 0, 0] [1, 0, 0] [0, 1, 0] [0, 0, 1] (-1) 1 1 1 (-1) 1 1 1 [] 1
    .MO_INDICES none (by decide) (by decide) (by decide) (by decide) (by decide)


theorem mem_insertByNum {e a : SeqEntry} {l : List SeqEntry} :
    a ∈ insertByNum e l ↔ a = e ∨ a ∈ l := by
  induction l with
  | nil => simp [insertByNum]
  | cons x xs ih =>
    unfold insertByNum
    by_cases hx : x.num < e.num
    · rw [if_pos hx]
      simp only [List.mem_cons, ih]
      tauto
    · rw [if_neg hx]
      simp only [List.mem_cons]

theorem pairwise_insertByNum {e : SeqEntry} {l : List SeqEntry}
    (h : List.Pairwise (fun a b => a.num ≤ b.num) l) :
    List.Pairwise (fun a b => a.num ≤ b.num) (insertByNum e l) := by
  induction l with
  | nil => simp [insertByNum]
  | cons x xs ih =>
    rw [List.pairwise_cons] at h
    unfold insertByNum
    by_cases hx : x.num < e.num
    · rw [if_pos hx]
      rw [List.pairwise_cons]
      refine ⟨?_, ih h.2⟩
      intro a ha
      rcases mem_insertByNum.mp ha with rfl | ha
      · omega
      · exact h.1 a ha
    · rw [if_neg hx]
      rw [List.pairwise_cons]
      refine ⟨?_, List.pairwise_cons.mpr h⟩
      intro a ha
      rcases List.mem_cons.mp ha with rfl | ha
      · omega
      · have := h.1 a ha
        omega

theorem sortFound_pairwise (l : List SeqEntry) :
    List.Pairwise (fun a b => a.num ≤ b.num) (sortFound l) := by
  induction l with
  | nil => simp [sortFound]
  | cons x xs ih => exact pairwise_insertByNum ih

theorem insertByNum_perm (e : SeqEntry) (l : List SeqEntry) :
    (insertByNum e l).Perm (e :: l) := by
  induction l with
  | nil => simp [insertByNum]
  | cons x xs ih =>
    unfold insertByNum
    by_cases hx : x.num < e.num
    · rw [if_pos hx]
      exact (ih.cons x).trans (List.Perm.swap e x xs)
    · rw [if_neg hx]

theorem sortFound_perm (l : List SeqEntry) : (sortFound l).Perm l := by
  induction l with
  | nil => simp [sortFound]
  | cons x xs ih => exact (insertByNum_perm x (sortFound xs)).trans (ih.cons x)

theorem mem_foundSequences {listing : List String} {pre suf : String} {e : SeqEntry}
    (h : e ∈ foundSequences listing pre suf) :
    e.name = pyStrNat e.num ∧ e.path ∈ listing ∧ matchSibling pre suf e.path = some e.num := by
  unfold foundSequences at h
  obtain ⟨f, hf, hsome⟩ := List.mem_filterMap.mp h
  cases hm : matchSibling pre suf f with
  | none => rw [hm] at hsome; simp at hsome
  | some n =>
    rw [hm, Option.map_some'] at hsome
    cases hsome
    exact ⟨rfl, hf, hm⟩

/-- C3.  The Sequence Resolver's plan is sorted ascending by the integer
parsed from each digit run (numeric order, not lexicographic), every
entry's name override is the stringified integer (leading zeros are gone
because the value, not the text, is stringified); concretely,
`a2.cub, a010.cub, a001.cub` yield the plan
`a001.cub("1"), a2.cub("2"), a010.cub("10")`. -/
theorem spec_C3 (listing : List String) (pre suf : String) :
    List.Pairwise (fun a b => a.num ≤ b.num) (sortFound (foundSequences listing pre suf)) ∧
    (∀ e ∈ sortFound (foundSequences listing pre suf), e.name = pyStrNat e.num) ∧
    detectPattern ("a001.cub") = some ("a", "001", ".cub") ∧
    (sortFound (foundSequences ["a2.cub", "a010.cub", "a001.cub"] "a" ".cub")).map
      (fun e => (e.path, e.name)) =
      [("a001.cub", "1"), ("a2.cub", "2"), ("a010.cub", "10")] := by
  refine ⟨sortFound_pairwise _, ?_, by decide, by decide⟩
  intro e he
  have hmem : e ∈ foundSequences listing pre suf :=
    ((sortFound_perm _).mem_iff).mp he
  exact (mem_foundSequences hmem).1

theorem option_bind_some {α β : Type} (a : α) (f : α → Option β) :
    (some a >>= f) = f a := rfl

theorem option_bind_none {α β : Type} (f : α → Option β) :
    ((none : Option α) >>= f) = none := rfl

theorem option_pure_eq {α : Type} (a : α) : (pure a : Option α) = some a := rfl

theorem foldlM_append_eq (f : String × Option String → Option (List GridRecord)) :
    ∀ (plan : List (String × Option String)) (acc : List GridRecord),
      List.foldlM (fun acc entry => (f entry).map (acc ++ ·)) acc plan =
        (plan.mapM f).map (fun ls => acc ++ ls.flatten) := by
  intro plan
  induction plan with
  | nil =>
    intro acc
    rw [List.foldlM_nil, List.mapM_nil, option_pure_eq, option_pure_eq,
      Option.map_some']
    simp
  | cons p ps ih =>
    intro acc
    rw [List.foldlM_cons, List.mapM_cons]
    cases hf : f p with
    | none =>
      simp only [hf, Option.map_none', option_bind_none]
    | some gs =>
      simp only [hf, Option.map_some', option_bind_some]
      rw [ih (acc ++ gs)]
      cases hm : ps.mapM f with
      | none => simp only [hm, option_bind_none, Option.map_none']
      | some ls =>
        simp only [hm, option_bind_some, option_pure_eq, Option.map_some',
          List.flatten_cons, List.append_assoc]

theorem batchGrids_eq_mapM (dir : Directory) (scale : ℚ) (mode : NamingMode)
    (plan : List (String × Option String)) :
    batchGrids dir scale mode plan =
      (plan.mapM (perFileGrids dir scale mode)).map List.flatten := by
  unfold batchGrids
  rw [foldlM_append_eq]
  cases plan.mapM (perFileGrids dir scale mode) with
  | none => rfl
  | some ls => simp

/-- C5 (amended).  Provided no processed file diverges (every per-file
read returns), the Batch Orchestrator concatenates the per-file results
in plan order, a file whose read raises contributing nothing (the
exception is caught, the batch continues); `RuntimeError("No grids
loaded.")` is raised exactly when the concatenation is empty, every
error is that one, and the container writer (the `.ok` hand-off) is
reached only with a non-empty batch.  A multi-field file whose stream
ends with the declared orbital-index list still short instead hangs the
whole batch (`none`): no per-file catch, no `BatchError`, no writer
call, later files lost — see the counterexample. -/
theorem spec_C5 (dir : Directory) (filename : String) (scale : ℚ) (mode : NamingMode)
    (importSeq : Bool) (plan : List (String × Option String)) :
    batchGrids dir scale mode plan =
      (plan.mapM (perFileGrids dir scale mode)).map List.flatten ∧
    (loadCube dir filename scale mode importSeq = some (.error ("No grids loaded.")) ↔
      batchGrids dir scale mode (planOf (listdir dir) filename importSeq) = some []) ∧
    (∀ out gs, loadCube dir filename scale mode importSeq = some (.ok (out, gs)) →
      batchGrids dir scale mode (planOf (listdir dir) filename importSeq) = some gs ∧
        gs ≠ []) ∧
    (∀ e, loadCube dir filename scale mode importSeq = some (.error e) →
      e = "No grids loaded.") ∧
    (loadCube dir filename scale mode importSeq = none ↔
      batchGrids dir scale mode (planOf (listdir dir) filename importSeq) = none) := by
  refine ⟨batchGrids_eq_mapM dir scale mode plan, ?_, ?_, ?_, ?_⟩
  · simp only [loadCube]
    cases hB : batchGrids dir scale mode (planOf (listdir dir) filename importSeq) with
    | none => simp [hB]
    | some gsAll =>
      by_cases hE : gsAll = []
      · subst hE; simp
      · simp [hE, List.isEmpty_iff]
  · intro out gs h
    simp only [loadCube] at h
    cases hB : batchGrids dir scale mode (planOf (listdir dir) filename importSeq) with
    | none => rw [hB] at h; cases h
    | some gsAll =>
      simp only [hB] at h
      by_cases hE : gsAll = []
      · rw [if_pos (by simpa [List.isEmpty_iff] using hE)] at h
        cases h
      · rw [if_neg (by simpa [List.isEmpty_iff] using hE)] at h
        cases h
        exact ⟨rfl, hE⟩
  · intro e h
    simp only [loadCube] at h
    cases hB : batchGrids dir scale mode (planOf (listdir dir) filename importSeq) with
    | none => rw [hB] at h; cases h
    | some gsAll =>
      simp only [hB] at h
      by_cases hE : gsAll = []
      · rw [if_pos (by simpa [List.isEmpty_iff] using hE)] at h
        cases h
        rfl
      · rw [if_neg (by simpa [List.isEmpty_iff] using hE)] at h
        cases h
  · simp only [loadCube]
    cases hB : batchGrids dir scale mode (planOf (listdir dir) filename importSeq) with
    | none => simp [hB]
    | some gsAll =>
      by_cases hE : gsAll = []
      · subst hE; simp
      · simp [hE, List.isEmpty_iff]

/-- C5 counterexample.  Sequence mode on a directory where `b1.cub`
declares 3 orbitals but supplies one index before end of file: the
source's continuation loop runs forever, so the whole batch hangs —
the raised-exception catch never fires, no `RuntimeError` is raised,
no writer call happens, and the healthy sibling `b2.cub` (which on its
own parses to a full grid, second conjunct) is lost. -/
theorem spec_C5_cex :
    loadCube hangBatchDir ("b1.cub") 1 .MO_INDICES true = none ∧
    readVdbGrids (oneVoxCube 9) 1 .MO_INDICES (some ("2")) =
      .ok [{ name := "2", data := [9], shape := (1, 1, 1),
             transform := [[1, 0, 0, 0], [0, 1, 0, 0], [0, 0, 1, 0], [0, 0, 0, 1]] }] := by
  exact ⟨by decide, by decide⟩


theorem splitLastDot_eq : ∀ {cs b a : List Char},
    splitLastDot cs = some (b, a) → cs = b ++ '.' :: a := by
  intro cs
  induction cs with
  | nil => intro b a h; simp [splitLastDot] at h
  | cons c rest ih =>
    intro b a h
    unfold splitLastDot at h
    cases hr : splitLastDot rest with
    | some ba =>
      obtain ⟨bb, aa⟩ := ba
      rw [hr] at h
      simp only [Option.some.injEq, Prod.mk.injEq] at h
      obtain ⟨hb, ha⟩ := h
      subst hb
      subst ha
      simpa using congrArg (c :: ·) (ih hr)
    | none =>
      rw [hr] at h
      by_cases hc : c = '.'
      · rw [if_pos hc] at h
        simp only [Option.some.injEq, Prod.mk.injEq] at h
        obtain ⟨hb, ha⟩ := h
        subst hb
        subst ha
        simp [hc]
      · rw [if_neg hc] at h
        cases h

theorem lookup_mem_keys {dir : Directory} {k : String} {v : List (List ℚ)}
    (h : List.lookup k dir = some v) : k ∈ listdir dir := by
  induction dir with
  | nil => cases h
  | cons p rest ih =>
    obtain ⟨k0, v0⟩ := p
    unfold List.lookup at h
    by_cases hk : (k == k0) = true
    · have : k = k0 := beq_iff_eq.mp hk
      subst this
      exact List.mem_cons_self _ _
    · rw [Bool.not_eq_true] at hk
      rw [hk] at h
      exact List.mem_cons_of_mem _ (ih h)

theorem detect_self_match {fn pre d suf : String}
    (h : detectPattern fn = some (pre, d, suf)) :
    matchSibling pre suf fn = some (digitsVal d.data) := by
  unfold detectPattern at h
  split at h
  · cases h
  · rename_i before ext hsplit
    by_cases hext : ext = []
    · rw [if_pos hext] at h; cases h
    · rw [if_neg hext] at h
      by_cases hds : (before.reverse.takeWhile Char.isDigit).reverse = []
      · rw [if_pos hds] at h; cases h
      · rw [if_neg hds] at h
        simp only [Option.some.injEq, Prod.mk.injEq] at h
        obtain ⟨hpre, hd, hsuf⟩ := h
        have hpredata : pre.data = (before.reverse.dropWhile Char.isDigit).reverse :=
          congrArg String.data hpre.symm
        have hddata : d.data = (before.reverse.takeWhile Char.isDigit).reverse :=
          congrArg String.data hd.symm
        have hsufdata : suf.data = '.' :: ext := congrArg String.data hsuf.symm
        have hbefore : before = pre.data ++ d.data := by
          rw [hpredata, hddata]
          calc before = before.reverse.reverse := (List.reverse_reverse before).symm
            _ = (before.reverse.takeWhile Char.isDigit ++
                  before.reverse.dropWhile Char.isDigit).reverse := by
                rw [List.takeWhile_append_dropWhile]
            _ = (before.reverse.dropWhile Char.isDigit).reverse ++
                  (before.reverse.takeWhile Char.isDigit).reverse := by
                rw [List.reverse_append]
        have hfn : fn.data = (pre.data ++ d.data) ++ suf.data := by
          rw [splitLastDot_eq hsplit, hbefore, hsufdata, List.append_assoc]
        have hdne : d.data ≠ [] := by rw [hddata]; exact hds
        have hdlen : 0 < d.data.length := List.length_pos.mpr hdne
        have hdigits : ∀ c ∈ d.data, c.isDigit = true := by
          intro c hc
          rw [hddata] at hc
          exact List.mem_takeWhile_imp (List.mem_reverse.mp hc)
        unfold matchSibling
        have hlen : fn.data.length = pre.data.length + d.data.length + suf.data.length := by
          rw [hfn, List.length_append, List.length_append]
        have htake : fn.data.take pre.data.length = pre.data := by
          rw [hfn, List.append_assoc]
          exact List.take_left _ _
        have hdropmid : fn.data.drop pre.data.length = d.data ++ suf.data := by
          rw [hfn, List.append_assoc]
          exact List.drop_left _ _
        have hdropend : fn.data.drop (fn.data.length - suf.data.length) = suf.data := by
          have : fn.data.length - suf.data.length = (pre.data ++ d.data).length := by
            rw [List.length_append]; omega
          rw [this, hfn]
          exact List.drop_left _ _
        have hmidlen : fn.data.length - pre.data.length - suf.data.length = d.data.length := by
          omega
        have hmid : (fn.data.drop pre.data.length).take
            (fn.data.length - pre.data.length - suf.data.length) = d.data := by
          rw [hdropmid, hmidlen]
          exact List.take_left _ _
        rw [if_pos ?side]
        · rw [hmid]
        case side =>
          refine ⟨by omega, htake, hdropend, ?_⟩
          rw [hmid]
          exact List.all_eq_true.mpr hdigits

/-- C10.  With sequence mode off, or when no digit run precedes the
extension (detection degrades before any sibling matching), the batch
destination is the input path with its extension replaced by `.vdb`;
and when a pattern is detected but the directory scan matches no sibling
(so the `{prefix}all.vdb` name was provisionally set), the input file
itself is absent from the directory, every read fails and the batch
aborts with `RuntimeError` before any container-writer call — so
`{prefix}all.vdb` is only ever written when siblings are found. -/
theorem spec_C10 (dir : Directory) (listing : List String) (filename : String)
    (scale : ℚ) (mode : NamingMode) (pre dgts suf : String) :
    outputNameOf listing filename false = splitextRoot filename ++ ".vdb" ∧
    (detectPattern filename = none →
      outputNameOf listing filename true = splitextRoot filename ++ ".vdb") ∧
    (detectPattern filename = some (pre, dgts, suf) →
      foundSequences (listdir dir) pre suf = [] →
      loadCube dir filename scale mode true = some (.error ("No grids loaded."))) := by
  refine ⟨rfl, ?_, ?_⟩
  · intro h
    simp [outputNameOf, resolveSequence, h]
  · intro hdet hfound
    have hplan : planOf (listdir dir) filename true = [(filename, none)] := by
      simp [planOf, resolveSequence, hdet, hfound, sortFound]
    have hlookup : List.lookup filename dir = none := by
      cases hl : List.lookup filename dir with
      | none => rfl
      | some c =>
        have hmem : filename ∈ listdir dir := lookup_mem_keys hl
        have hmatch := detect_self_match hdet
        have hin : (⟨filename, pyStrNat (digitsVal dgts.data), digitsVal dgts.data⟩ :
            SeqEntry) ∈ foundSequences (listdir dir) pre suf := by
          unfold foundSequences
          exact List.mem_filterMap.mpr ⟨filename, hmem, by rw [hmatch]; rfl⟩
        rw [hfound] at hin
        cases hin
    have hpf : perFileGrids dir scale mode (filename, none) = some [] := by
      simp only [perFileGrids, hlookup]
    have hbatch : batchGrids dir scale mode [(filename, none)] = some [] := by
      unfold batchGrids
      simp only [List.foldlM_cons, List.foldlM_nil]
      rw [hpf]
      rfl
    simp only [loadCube]
    rw [hplan, hbatch]
    rfl


theorem stringDataInj {s t : String} (h : s.data = t.data) : s = t := by
  cases s
  cases t
  exact congrArg String.mk h

theorem except_bind_ok {ε α β : Type} (a : α) (f : α → Except ε β) :
    (Except.ok a >>= f) = f a := rfl

theorem except_bind_error {ε α β : Type} (e : ε) (f : α → Except ε β) :
    ((Except.error e : Except ε α) >>= f) = Except.error e := rfl

theorem except_pure_eq {ε α : Type} (a : α) : (pure a : Except ε α) = Except.ok a := rfl

theorem mapM_ok_forall2 {ε α β : Type} (f : α → Except ε β) :
    ∀ (l : List α) (out : List β), l.mapM f = .ok out →
      List.Forall₂ (fun a b => f a = .ok b) l out := by
  intro l
  induction l with
  | nil =>
    intro out h
    rw [List.mapM_nil, except_pure_eq] at h
    cases h
    exact List.Forall₂.nil
  | cons a l ih =>
    intro out h
    rw [List.mapM_cons] at h
    cases hfa : f a with
    | error e => rw [hfa, except_bind_error] at h; cases h
    | ok b =>
      rw [hfa, except_bind_ok] at h
      cases hml : l.mapM f with
      | error e => rw [hml, except_bind_error] at h; cases h
      | ok bs =>
        rw [hml, except_bind_ok, except_pure_eq] at h
        cases h
        exact List.Forall₂.cons hfa (ih bs hml)

theorem forall2_mem_right {α β : Type} {R : α → β → Prop} :
    ∀ {l1 : List α} {l2 : List β}, List.Forall₂ R l1 l2 → ∀ b ∈ l2, ∃ a ∈ l1, R a b := by
  intro l1 l2 h
  induction h with
  | nil => intro b hb; cases hb
  | cons hr _ ih =>
    intro b hb
    rcases List.mem_cons.mp hb with rfl | hb
    · exact ⟨_, List.mem_cons_self _ _, hr⟩
    · obtain ⟨a, ha, hra⟩ := ih b hb
      exact ⟨a, List.mem_cons_of_mem _ ha, hra⟩

theorem pyStrInt_injective : Function.Injective pyStrInt := by
  intro a b h
  match a, b with
  | .ofNat m, .ofNat n =>
    exact congrArg Int.ofNat (pyStrNat_injective h)
  | .ofNat m, .negSucc n =>
    exfalso
    have hd : natDigits m = '-' :: natDigits (n + 1) := congrArg String.data h
    have : '-' ∈ natDigits m := by rw [hd]; exact List.mem_cons_self _ _
    have := mem_natDigits_isDigit m '-' this
    simp [Char.isDigit] at this
  | .negSucc m, .ofNat n =>
    exfalso
    have hd : '-' :: natDigits (m + 1) = natDigits n := congrArg String.data h
    have : '-' ∈ natDigits n := by rw [← hd]; exact List.mem_cons_self _ _
    have := mem_natDigits_isDigit n '-' this
    simp [Char.isDigit] at this
  | .negSucc m, .negSucc n =>
    have hd : '-' :: natDigits (m + 1) = '-' :: natDigits (n + 1) := congrArg String.data h
    have hdd : natDigits (m + 1) = natDigits (n + 1) := by
      injection hd
    have := congrArg digitsVal hdd
    simp only [digitsVal_natDigits] at this
    have : m = n := by omega
    exact congrArg Int.negSucc this

theorem takeWhile_all {p : Char → Bool} : ∀ {l : List Char},
    (∀ c ∈ l, p c = true) → l.takeWhile p = l := by
  intro l
  induction l with
  | nil => intro _; rfl
  | cons c rest ih =>
    intro h
    rw [List.takeWhile_cons, h c (List.mem_cons_self _ _), if_pos rfl,
      ih fun x hx => h x (List.mem_cons_of_mem _ hx)]

theorem takeWhile_append_stop {p : Char → Bool} {c : Char} (hc : p c = false) :
    ∀ {l1 l2 : List Char}, (∀ x ∈ l1, p x = true) →
      (l1 ++ c :: l2).takeWhile p = l1 := by
  intro l1 l2
  induction l1 with
  | nil =>
    intro _
    rw [List.nil_append, List.takeWhile_cons, hc, if_neg (by simp)]
  | cons x rest ih =>
    intro h
    rw [List.cons_append, List.takeWhile_cons, h x (List.mem_cons_self _ _), if_pos rfl,
      ih fun y hy => h y (List.mem_cons_of_mem _ hy)]

theorem baseOf_plain {b : String} (hb : '_' ∉ b.data) : baseOf b = b.data := by
  unfold baseOf
  refine takeWhile_all ?_
  intro c hc
  simp only [decide_eq_true_eq]
  intro hcu
  exact hb (hcu ▸ hc)

theorem baseOf_forced {b x : String} (hb : '_' ∉ b.data) :
    baseOf (b ++ "_" ++ x) = b.data := by
  unfold baseOf
  have hdata : (b ++ "_" ++ x).data = b.data ++ '_' :: x.data := by
    rw [String.data_append, String.data_append]
    show (b.data ++ ['_']) ++ x.data = _
    rw [List.append_assoc, List.singleton_append]
  rw [hdata]
  refine takeWhile_append_stop (by decide) ?_
  intro c hc
  simp only [decide_eq_true_eq]
  intro hcu
  exact hb (hcu ▸ hc)


theorem parseHeader_ok_cases {file : List (List ℚ)} {hdr : Header} {rest : List (List ℚ)}
    (h : parseHeader file = .ok (hdr, rest)) :
    hdr.isMultiMo = true ∨ (hdr.isMultiMo = false ∧ hdr.nMo = 1 ∧ hdr.moIndices = []) := by
  simp only [parseHeader] at h
  split at h
  · cases h
  · split at h
    · cases h
    · split at h
      · cases h
      · split at h
        · cases h
        · split at h
          · cases h
          · split at h
            · split at h
              · cases h
              · cases h
                left
                rfl
            · cases h
              right
              exact ⟨rfl, rfl, rfl⟩

theorem readVdbGrids_ok_elim {file : List (List ℚ)} {scale : ℚ} {mode : NamingMode}
    {force : Option String} {gs : List GridRecord}
    (h : readVdbGrids file scale mode force = .ok gs) :
    ∃ hdr rest, parseHeader file = .ok (hdr, rest) ∧
      List.Forall₂
        (fun m g =>
          gridNameE force hdr.isMultiMo hdr.nMo mode hdr.moIndices m = .ok g.name)
        (List.range hdr.nMo.toNat) gs := by
  unfold readVdbGrids at h
  cases hph : parseHeader file with
  | error e => rw [hph, except_bind_error] at h; cases h
  | ok pr =>
    obtain ⟨hdr, rest⟩ := pr
    rw [hph] at h
    simp only [except_bind_ok] at h
    cases hdp : decodePayload rest (hdr.n1 * hdr.n2 * hdr.n3 * hdr.nMo) with
    | error e => rw [hdp, except_bind_error] at h; cases h
    | ok flat =>
      rw [hdp] at h
      simp only [except_bind_ok] at h
      by_cases hrs : reshapeOk flat.length
          (if 1 < hdr.nMo then [hdr.n1, hdr.n2, hdr.n3, hdr.nMo]
           else [hdr.n1, hdr.n2, hdr.n3])
      · rw [if_pos hrs] at h
        cases hbt : buildTransform hdr.v1 hdr.v2 hdr.v3 hdr.origin scale with
        | error e => rw [hbt, except_bind_error] at h; cases h
        | ok mat =>
          rw [hbt] at h
          simp only [except_bind_ok] at h
          refine ⟨hdr, rest, rfl, ?_⟩
          unfold assembleGrids at h
          have h2 := mapM_ok_forall2 _ _ _ h
          refine h2.imp ?_ 
          intro m g hm
          cases hng : gridNameE force hdr.isMultiMo hdr.nMo mode hdr.moIndices m with
          | error e => rw [hng, except_bind_error] at hm; cases hm
          | ok name =>
            rw [hng, except_bind_ok] at hm
            cases hm
            rfl
      · rw [if_neg hrs] at h
        cases h


theorem perFileGrids_forced_base {dir : Directory} {scale : ℚ} {mode : NamingMode}
    {p b : String} {g : GridRecord} (hb : '_' ∉ b.data)
    (hg : g ∈ (perFileGrids dir scale mode (p, some b)).getD []) :
    baseOf g.name = b.data := by
  unfold perFileGrids at hg
  cases hl : List.lookup p dir with
  | none => simp only [hl, Option.getD_some] at hg; cases hg
  | some contents =>
    simp only [hl] at hg
    cases hr : readVdbGrids contents scale mode (some b) with
    | error e =>
      cases e <;> simp only [hr, Option.getD_some, Option.getD_none] at hg <;> cases hg
    | ok gs =>
      simp only [hr, Option.getD_some] at hg
      obtain ⟨hdr, rest, hph, hf⟩ := readVdbGrids_ok_elim hr
      obtain ⟨m, _, hname⟩ := forall2_mem_right hf g hg
      simp only [gridNameE, Except.ok.injEq] at hname
      by_cases hF : 1 < hdr.nMo
      · rw [if_pos hF] at hname
        rw [← hname]
        exact baseOf_forced hb
      · rw [if_neg hF] at hname
        rw [← hname]
        exact baseOf_plain hb


theorem forced_name_inj {b : String} {i j : ℕ}
    (h : b ++ "_" ++ pyStrNat (i + 1) = b ++ "_" ++ pyStrNat (j + 1)) : i = j := by
  have hdata := congrArg String.data h
  rw [String.data_append, String.data_append, String.data_append,
    String.data_append] at hdata
  have h2 := List.append_cancel_left hdata
  have h3 : pyStrNat (i + 1) = pyStrNat (j + 1) := stringDataInj h2
  have := pyStrNat_injective h3
  omega

theorem names_nodup_of_ok {file : List (List ℚ)} {scale : ℚ} {mode : NamingMode}
    {force : Option String} {hdr : Header} {rest : List (List ℚ)} {gs : List GridRecord}
    (hph : parseHeader file = .ok (hdr, rest)) (hnd : hdr.moIndices.Nodup)
    (h : readVdbGrids file scale mode force = .ok gs) :
    (gs.map GridRecord.name).Nodup := by
  obtain ⟨hdr2, rest2, hph2, hf⟩ := readVdbGrids_ok_elim h
  rw [hph] at hph2
  cases hph2
  rw [List.forall₂_iff_get] at hf
  obtain ⟨hlen, hget⟩ := hf
  rw [List.length_range] at hlen
  rw [List.nodup_iff_injective_get]
  intro i j hij
  have hi1 : (i : ℕ) < gs.length := by simpa using i.isLt
  have hj1 : (j : ℕ) < gs.length := by simpa using j.isLt
  have hiF : (i : ℕ) < hdr.nMo.toNat := by omega
  have hjF : (j : ℕ) < hdr.nMo.toNat := by omega
  have hni := hget (i : ℕ) (by rw [List.length_range]; exact hiF) hi1
  have hnj := hget (j : ℕ) (by rw [List.length_range]; exact hjF) hj1
  rw [List.get_range] at hni hnj
  rw [List.get_map, List.get_map] at hij
  have hij' : (gs.get ⟨(i : ℕ), hi1⟩).name = (gs.get ⟨(j : ℕ), hj1⟩).name := hij
  have hval : (i : ℕ) = (j : ℕ) := by
    clear hij
    cases force with
    | some b =>
      simp only [gridNameE, Except.ok.injEq] at hni hnj
      by_cases hF : 1 < hdr.nMo
      · rw [if_pos hF] at hni hnj
        exact forced_name_inj (by rw [hni, hnj, hij'])
      · have hFle : hdr.nMo.toNat ≤ 1 := by omega
        omega
    | none =>
      cases hMu : hdr.isMultiMo with
      | false =>
        rcases parseHeader_ok_cases hph with hTrue | ⟨_, hn1, _⟩
        · rw [hMu] at hTrue; cases hTrue
        · have hF1 : hdr.nMo.toNat = 1 := by rw [hn1]; rfl
          omega
      | true =>
        rw [hMu] at hni hnj
        simp only [gridNameE] at hni hnj
        rw [if_pos trivial] at hni hnj
        by_cases hMode : mode = NamingMode.MO_INDICES ∧ hdr.moIndices ≠ []
        · rw [if_pos hMode] at hni hnj
          cases hgi : hdr.moIndices[(i : ℕ)]? with
          | none => simp only [hgi] at hni; cases hni
          | some ixi =>
            cases hgj : hdr.moIndices[(j : ℕ)]? with
            | none => simp only [hgj] at hnj; cases hnj
            | some ixj =>
              simp only [hgi, Except.ok.injEq] at hni
              simp only [hgj, Except.ok.injEq] at hnj
              have hx : pyStrInt ixi = pyStrInt ixj := by rw [hni, hnj, hij']
              have hxx : ixi = ixj := pyStrInt_injective hx
              obtain ⟨hilt, hig⟩ := List.getElem?_eq_some_iff.mp hgi
              obtain ⟨hjlt, hjg⟩ := List.getElem?_eq_some_iff.mp hgj
              have hgeq : hdr.moIndices.get ⟨(i : ℕ), hilt⟩ =
                  hdr.moIndices.get ⟨(j : ℕ), hjlt⟩ := by
                simp only [List.get_eq_getElem]
                rw [hig, hjg, hxx]
              have hfin := (hnd.get_inj_iff).mp hgeq
              have hv : ((⟨(i : ℕ), hilt⟩ : Fin hdr.moIndices.length) : ℕ) =
                  ((⟨(j : ℕ), hjlt⟩ : Fin hdr.moIndices.length) : ℕ) :=
                congrArg Fin.val hfin
              exact hv
        · rw [if_neg hMode] at hni hnj
          rw [Except.ok.injEq] at hni hnj
          have hx : pyStrNat ((i : ℕ) + 1) = pyStrNat ((j : ℕ) + 1) := by
            rw [hni, hnj, hij']
          have := pyStrNat_injective hx
          omega
  exact Fin.ext hval


theorem batch_chunks_disjoint {dir : Directory} {scale : ℚ} {mode : NamingMode}
    {listing : List String} {pre suf : String}
    (hnd : ((foundSequences listing pre suf).map SeqEntry.num).Nodup) :
    List.Pairwise
      (fun o1 o2 => ∀ g1 ∈ o1.getD [], ∀ g2 ∈ o2.getD [], g1.name ≠ g2.name)
      ((planFromFound (sortFound (foundSequences listing pre suf))).map
        (perFileGrids dir scale mode)) := by
  unfold planFromFound
  rw [List.map_map, List.pairwise_map]
  have hperm := sortFound_perm (foundSequences listing pre suf)
  have hnd2 : ((sortFound (foundSequences listing pre suf)).map SeqEntry.num).Nodup :=
    ((hperm.map SeqEntry.num).nodup_iff).mpr hnd
  have hpair : List.Pairwise (fun a b => a.num ≠ b.num)
      (sortFound (foundSequences listing pre suf)) := List.pairwise_map.mp hnd2
  refine hpair.imp_of_mem ?_
  intro e1 e2 h1mem h2mem hne g1 hg1 g2 hg2 heq
  have he1 := mem_foundSequences ((hperm.mem_iff).mp h1mem)
  have he2 := mem_foundSequences ((hperm.mem_iff).mp h2mem)
  have hb1 : '_' ∉ (pyStrNat e1.num).data := underscore_not_mem_natDigits e1.num
  have hb2 : '_' ∉ (pyStrNat e2.num).data := underscore_not_mem_natDigits e2.num
  have hg1' :
      g1 ∈ (perFileGrids dir scale mode (e1.path, some (pyStrNat e1.num))).getD [] := by
    rw [← he1.1]
    exact hg1
  have hg2' :
      g2 ∈ (perFileGrids dir scale mode (e2.path, some (pyStrNat e2.num))).getD [] := by
    rw [← he2.1]
    exact hg2
  have hbase1 : baseOf g1.name = (pyStrNat e1.num).data :=
    perFileGrids_forced_base hb1 hg1'
  have hbase2 : baseOf g2.name = (pyStrNat e2.num).data :=
    perFileGrids_forced_base hb2 hg2'
  rw [heq] at hbase1
  have hdq : (pyStrNat e1.num).data = (pyStrNat e2.num).data := by
    rw [← hbase1, ← hbase2]
  exact hne (pyStrNat_injective (stringDataInj hdq))

/-- C8 counterexample.  Sequence mode on a directory holding `a1.cub` and
`a01.cub`: both digit runs parse to the integer 1, both files get the
forced base name "1", and the batch holds two GridRecords from different
files with the same name — the forced-base-name override does not
prevent this cross-file collision. -/
theorem spec_C8_cex :
    loadCube clashDir ("a1.cub") 1 .MO_INDICES true =
      some (.ok ("a_all.vdb",
        [{ name := "1", data := [5], shape := (1, 1, 1),
           transform := [[1, 0, 0, 0], [0, 1, 0, 0], [0, 0, 1, 0], [0, 0, 0, 1]] },
         { name := "1", data := [7], shape := (1, 1, 1),
           transform := [[1, 0, 0, 0], [0, 1, 0, 0], [0, 0, 1, 0], [0, 0, 0, 1]] }])) := by
  decide

/-- C8 (amended).  Within one file no two GridRecords share a name when
the declared orbital-index list is duplicate-free; across the files of a
sequence batch no two GridRecords from different files share a name
provided the matched digit runs parse to pairwise-distinct integers
(leading-zero stripping can merge two file names onto one integer, which
is exactly what the counterexample exploits). -/
theorem spec_C8_amended :
    (∀ (file : List (List ℚ)) (scale : ℚ) (mode : NamingMode) (force : Option String)
        (hdr : Header) (rest : List (List ℚ)) (gs : List GridRecord),
      parseHeader file = .ok (hdr, rest) → hdr.moIndices.Nodup →
      readVdbGrids file scale mode force = .ok gs → (gs.map GridRecord.name).Nodup) ∧
    (∀ (dir : Directory) (scale : ℚ) (mode : NamingMode) (listing : List String)
        (pre suf : String),
      ((foundSequences listing pre suf).map SeqEntry.num).Nodup →
      List.Pairwise
        (fun o1 o2 => ∀ g1 ∈ o1.getD [], ∀ g2 ∈ o2.getD [], g1.name ≠ g2.name)
        ((planFromFound (sortFound (foundSequences listing pre suf))).map
          (perFileGrids dir scale mode))) :=
  ⟨fun _ _ _ _ _ _ _ hph hnd h => names_nodup_of_ok hph hnd h,
   fun _ _ _ _ _ _ hnd => batch_chunks_disjoint hnd⟩

theorem spec_C8_witness :
    (([{ name := "5", data := [3], shape := (1, 1, 1),
         transform := [[1, 0, 0, 0], [0, 1, 0, 0], [0, 0, 1, 0], [0, 0, 0, 1]] },
       { name := "7", data := [4], shape := (1, 1, 1),
         transform := [[1, 0, 0, 0], [0, 1, 0, 0], [0, 0, 1, 0], [0, 0, 0, 1]] }] :
        List GridRecord).map GridRecord.name).Nodup :=
  spec_C8_amended.1 mmoCube 1 .MO_INDICES none
    ⟨true, [0, 0, 0], 1, [1, 0, 0], 1, [0, 1, 0], 1, [0, 0, 1], 2, [5, 7]⟩ [[3, 4]]
    [{ name := "5", data := [3], shape := (1, 1, 1),
       transform := [[1, 0, 0, 0], [0, 1, 0, 0], [0, 0, 1, 0], [0, 0, 0, 1]] },
     { name := "7", data := [4], shape := (1, 1, 1),
       transform := [[1, 0, 0, 0], [0, 1, 0, 0], [0, 0, 1, 0], [0, 0, 0, 1]] }]
    (by decide) (by decide) (by decide)

end
